import Mathlib

/-!
Verification of the live-session / event-relay layer of the Wizard Game
backend (server.js).  The global real-time state is two JS `Map`s —
`activePlayers : playerId -> socket.id` and `playerSockets : socket.id ->
playerData` — plus the `recentSpells` array.  We embed JS `Map` as an
association list keeping insertion order (`set` replaces in place or appends;
`delete` removes the entry with the key; JS `Map` keys are unique, so
removing all entries with the key coincides with removing the one entry).
Each socket handler becomes a pure function from server state and payload to
a new state together with the list of outbound messages, each tagged with its
fan-out target.
-/

namespace WizardServer

/-- A 2D position `{x, y}` as carried in join/move/spell payloads. -/
structure Pos where
  x : Int
  y : Int
  deriving DecidableEq

/-- An RGBA color as carried in spell payloads (default `{r:1,g:1,b:1,a:1}`). -/
structure Color where
  r : Int
  g : Int
  b : Int
  a : Int
  deriving DecidableEq

/-- The per-connection player data stored in `playerSockets` on join. -/
structure Session where
  playerId : String
  username : String
  house : String
  position : Pos
  health : Nat
  maxHealth : Nat
  deriving DecidableEq

/-- A record of the `recentSpells` array, built in the `spell:cast` handler. -/
structure SpellData where
  casterId : String
  casterName : String
  spellName : String
  position : Pos
  direction : Pos
  color : Color
  damage : Int
  speed : Int
  timestamp : Int
  deriving DecidableEq

/-- Lookup in a JS `Map` modelled as an association list (first entry wins;
keys are unique in every reachable state, mirroring JS `Map`). -/
def mapGet {α : Type} : List (String × α) → String → Option α
  | [], _ => none
  | (k', v) :: rest, k => if k' = k then some v else mapGet rest k

/-- JS `Map.prototype.set`: replaces the value in place if the key is
present (keeping its position in iteration order), else appends at the end. -/
def mapSet {α : Type} : List (String × α) → String → α → List (String × α)
  | [], k, v => [(k, v)]
  | (k', v') :: rest, k, v =>
      if k' = k then (k, v) :: rest else (k', v') :: mapSet rest k v

/-- JS `Map.prototype.delete`: removes the entry with the key.  Keys are
unique in a JS `Map`, so filtering out every entry with the key is the same
operation. -/
def mapDelete {α : Type} (m : List (String × α)) (k : String) :
    List (String × α) :=
  m.filter fun e => e.1 != k

/-- MAX_SPELL_HISTORY constant from server.js. -/
def MAX_SPELL_HISTORY : Nat := 50

/-- SPELL_TIMEOUT constant (ms) from server.js. -/
def SPELL_TIMEOUT : Int := 5000

/-- The global real-time state of server.js: `activePlayers` (playerId ->
socket.id), `playerSockets` (socket.id -> playerData) and `recentSpells`. -/
structure ServerState where
  activePlayers : List (String × String)
  playerSockets : List (String × Session)
  recentSpells : List SpellData
  deriving DecidableEq

/-- The state at server start: both maps and the spell array empty. -/
def emptyState : ServerState := ⟨[], [], []⟩

/-- Payload of the `player:join` event; `position` is optional (`position ||
\x7bx: 0, y: 0\x7d` in the handler). -/
structure JoinData where
  playerId : String
  username : String
  house : String
  position : Option Pos
  deriving DecidableEq

/-- Payload of the `player:move` event. -/
structure MovePayload where
  position : Pos
  deriving DecidableEq

/-- Payload of the `spell:cast` event; `color`, `damage` and `speed` are
optional with defaults filled in by the handler. -/
structure SpellCastPayload where
  spellName : String
  position : Pos
  direction : Pos
  color : Option Color
  damage : Option Int
  speed : Option Int
  deriving DecidableEq

/-- Payload of the `damage:dealt` event. -/
structure DamagePayload where
  targetId : String
  damage : Int
  source : String
  deriving DecidableEq

/-- Payload of the `player:death` event. -/
structure DeathPayload where
  killerId : String
  deriving DecidableEq

/-- Payload of the `chat:message` event. -/
structure ChatPayload where
  message : String
  deriving DecidableEq

/-- The public fields of a session, as sent in `players:list` and
`player:joined`. -/
structure PublicFields where
  playerId : String
  username : String
  house : String
  position : Pos
  deriving DecidableEq

/-- The payload of a `player:moved` broadcast. -/
structure MoveBroadcast where
  playerId : String
  username : String
  house : String
  position : Pos
  health : Nat
  maxHealth : Nat
  deriving DecidableEq

/-- Fan-out target of an outbound message: `io.emit` (all), `socket.broadcast.emit`
(all except the sender's connection), or `io.to(id).emit` (one connection). -/
inductive Target where
  | all : Target
  | allExcept : String → Target
  | only : String → Target
  deriving DecidableEq

/-- Outbound server-to-client messages of the relay layer. -/
inductive OutMsg where
  | playersList : List PublicFields → OutMsg
  | playerJoined : PublicFields → OutMsg
  | playerMoved : MoveBroadcast → OutMsg
  | spellCasted : SpellData → OutMsg
  | damageReceived : (attackerId : String) → (damage : Int) → (source : String) → OutMsg
  | playerDied : (playerId : String) → (killerId : String) → OutMsg
  | chatMessage : (username : String) → (house : String) → (message : String) →
      (timestamp : Int) → OutMsg
  | playerLeft : (playerId : String) → OutMsg
  deriving DecidableEq

/-- The connections a message reaches, given the currently open connections. -/
def recipients (conns : List String) : Target → List String
  | Target.all => conns
  | Target.allExcept c => conns.filter fun x => x != c
  | Target.only c => conns.filter fun x => x == c

/-- The public projection used for the roster and the join broadcast. -/
def publicOf (s : Session) : PublicFields :=
  ⟨s.playerId, s.username, s.house, s.position⟩

/-- Handler of `player:join` (server.js lines 419-463): store into both maps,
send the roster (all stored sessions whose playerId differs from the joiner's)
to the joiner, and broadcast the joiner's public fields to everyone else. -/
def handleJoin (st : ServerState) (sock : String) (d : JoinData) :
    ServerState × List (Target × OutMsg) :=
  let pos := d.position.getD ⟨0, 0⟩
  let session : Session :=
    { playerId := d.playerId, username := d.username, house := d.house
      position := pos, health := 100, maxHealth := 100 }
  let ap := mapSet st.activePlayers d.playerId sock
  let ps := mapSet st.playerSockets sock session
  let roster :=
    ((ps.map Prod.snd).filter fun p => p.playerId != d.playerId).map publicOf
  let joined : PublicFields := ⟨d.playerId, d.username, d.house, pos⟩
  ({ st with activePlayers := ap, playerSockets := ps },
   [(Target.only sock, OutMsg.playersList roster),
    (Target.allExcept sock, OutMsg.playerJoined joined)])

/-- Handler of `player:move` (lines 466-483): silently ignored unless the
connection has joined; otherwise update the stored position and broadcast the
move with the session's current health snapshot to everyone else. -/
def handleMove (st : ServerState) (sock : String) (d : MovePayload) :
    ServerState × List (Target × OutMsg) :=
  match mapGet st.playerSockets sock with
  | none => (st, [])
  | some pd =>
      let pd' := { pd with position := d.position }
      let mv : MoveBroadcast :=
        ⟨pd.playerId, pd.username, pd.house, d.position, pd.health, pd.maxHealth⟩
      ({ st with playerSockets := mapSet st.playerSockets sock pd' },
       [(Target.allExcept sock, OutMsg.playerMoved mv)])

/-- One append to `recentSpells` (lines 501-504): push at the end, then if the
length exceeds MAX_SPELL_HISTORY, shift one element off the front. -/
def pushSpell (buf : List SpellData) (s : SpellData) : List SpellData :=
  let b := buf ++ [s]
  if MAX_SPELL_HISTORY < b.length then b.drop 1 else b

/-- Handler of `spell:cast` (lines 486-510): silently ignored unless joined;
otherwise build the spell record (with defaults for color/damage/speed and the
server timestamp), append it to the bounded buffer and broadcast it to
everyone else. -/
def handleSpellCast (st : ServerState) (sock : String) (d : SpellCastPayload)
    (now : Int) : ServerState × List (Target × OutMsg) :=
  match mapGet st.playerSockets sock with
  | none => (st, [])
  | some pd =>
      let sp : SpellData :=
        { casterId := pd.playerId, casterName := pd.username
          spellName := d.spellName, position := d.position
          direction := d.direction, color := d.color.getD ⟨1, 1, 1, 1⟩
          damage := d.damage.getD 10, speed := d.speed.getD 5, timestamp := now }
      ({ st with recentSpells := pushSpell st.recentSpells sp },
       [(Target.allExcept sock, OutMsg.spellCasted sp)])

/-- Handler of `damage:dealt` (lines 513-528): silently ignored unless joined;
resolve the target's connection through `activePlayers` and, if found, unicast
`damage:received` to it; if not found, do nothing.  No session is mutated. -/
def handleDamage (st : ServerState) (sock : String) (d : DamagePayload) :
    ServerState × List (Target × OutMsg) :=
  match mapGet st.playerSockets sock with
  | none => (st, [])
  | some pd =>
      match mapGet st.activePlayers d.targetId with
      | none => (st, [])
      | some targetSock =>
          (st, [(Target.only targetSock,
                 OutMsg.damageReceived pd.playerId d.damage d.source)])

/-- Handler of `player:death` (lines 531-541): silently ignored unless joined;
broadcast victim and killer ids to everyone else. -/
def handleDeath (st : ServerState) (sock : String) (d : DeathPayload) :
    ServerState × List (Target × OutMsg) :=
  match mapGet st.playerSockets sock with
  | none => (st, [])
  | some pd =>
      (st, [(Target.allExcept sock, OutMsg.playerDied pd.playerId d.killerId)])

/-- Handler of `chat:message` (lines 544-554): silently ignored unless joined;
broadcast to everyone including the sender (`io.emit`). -/
def handleChat (st : ServerState) (sock : String) (d : ChatPayload)
    (now : Int) : ServerState × List (Target × OutMsg) :=
  match mapGet st.playerSockets sock with
  | none => (st, [])
  | some pd =>
      (st, [(Target.all, OutMsg.chatMessage pd.username pd.house d.message now)])

/-- Handler of `disconnect` (lines 557-574): if the connection had joined,
delete both map entries and broadcast the bare playerId as `player:left`;
otherwise do nothing. -/
def handleDisconnect (st : ServerState) (sock : String) :
    ServerState × List (Target × OutMsg) :=
  match mapGet st.playerSockets sock with
  | none => (st, [])
  | some pd =>
      ({ st with activePlayers := mapDelete st.activePlayers pd.playerId
                 playerSockets := mapDelete st.playerSockets sock },
       [(Target.allExcept sock, OutMsg.playerLeft pd.playerId)])

/-- One pass of the periodic spell-cleanup job (lines 603-615): the while
loop removes, in place, every entry with `now - timestamp > SPELL_TIMEOUT`
and keeps the rest in order. -/
def sweepSpells (now : Int) : List SpellData → List SpellData
  | [] => []
  | s :: rest =>
      if SPELL_TIMEOUT < now - s.timestamp then sweepSpells now rest
      else s :: sweepSpells now rest

/-- An inbound real-time event, tagged with the sender's connection id (and
the value of `Date.now()` where the handler reads the clock). -/
inductive Event where
  | join : String → JoinData → Event
  | move : String → MovePayload → Event
  | spellCast : String → SpellCastPayload → Int → Event
  | damageDealt : String → DamagePayload → Event
  | death : String → DeathPayload → Event
  | chat : String → ChatPayload → Int → Event
  | disconnect : String → Event
  deriving DecidableEq

/-- Dispatch of one inbound event to its handler. -/
def step (st : ServerState) : Event → ServerState × List (Target × OutMsg)
  | Event.join sock d => handleJoin st sock d
  | Event.move sock d => handleMove st sock d
  | Event.spellCast sock d now => handleSpellCast st sock d now
  | Event.damageDealt sock d => handleDamage st sock d
  | Event.death sock d => handleDeath st sock d
  | Event.chat sock d now => handleChat st sock d now
  | Event.disconnect sock => handleDisconnect st sock

/-- The state after one event (events are handled to completion, one at a
time, on the single-threaded event loop). -/
def stepState (st : ServerState) (e : Event) : ServerState := (step st e).1

/-- The state after a sequence of events. -/
def runEvents (st : ServerState) (es : List Event) : ServerState :=
  es.foldl stepState st

/-- The two-view consistency invariant of the registry: every session stored
under a connection id resolves, through `activePlayers`, back to exactly that
connection, and every `playerId -> connectionId` pointer points at a stored
session carrying that playerId. -/
def Consistent (st : ServerState) : Prop :=
  (∀ c s, mapGet st.playerSockets c = some s →
     mapGet st.activePlayers s.playerId = some c) ∧
  (∀ p c, mapGet st.activePlayers p = some c →
     ∃ s, mapGet st.playerSockets c = some s ∧ s.playerId = p)

/-- A join is admissible when it either re-registers its own connection under
the connection's existing playerId, or uses a playerId not currently carried
by any other connection's session.  All other events are unconditionally
admissible. -/
def admissibleEvent (st : ServerState) : Event → Bool
  | Event.join sock d =>
      st.playerSockets.all fun e =>
        if e.1 = sock then e.2.playerId == d.playerId
        else e.2.playerId != d.playerId
  | _ => true

/-- Every event of the run is admissible in the state it is processed in. -/
def admissibleRun (st : ServerState) : List Event → Bool
  | [] => true
  | e :: es => admissibleEvent st e && admissibleRun (stepState st e) es

/-- Whether an event is a join (register) or a disconnect (deregister). -/
def isJoinOrDisconnect : Event → Bool
  | Event.join _ _ => true
  | Event.disconnect _ => true
  | _ => false

/-- The connection id an inbound event arrives on. -/
def eventSock : Event → String
  | Event.join s _ => s
  | Event.move s _ => s
  | Event.spellCast s _ _ => s
  | Event.damageDealt s _ => s
  | Event.death s _ => s
  | Event.chat s _ _ => s
  | Event.disconnect s => s

/-- Whether an event is one of the non-join event types. -/
def nonJoinEvent : Event → Bool
  | Event.join _ _ => false
  | _ => true

/-- The connection id of the most recent register (join) call for a playerId
in a sequence of register calls, if any: later entries win. -/
def mostRecentConn : List (String × JoinData) → String → Option String
  | [], _ => none
  | (sock, d) :: rest, p =>
      match mostRecentConn rest p with
      | some c => some c
      | none => if d.playerId = p then some sock else none

/-- Every session stored in `playerSockets` has health 100 and maxHealth 100
(nothing in the relay layer ever writes any other value). -/
def allHealth100 (st : ServerState) : Prop :=
  ∀ e ∈ st.playerSockets, e.2.health = 100 ∧ e.2.maxHealth = 100

/-- No two entries of `playerSockets` share a connection id — the structural
key-uniqueness every JS `Map` guarantees, so it holds in every reachable
state. -/
def uniqueConnections (st : ServerState) : Prop :=
  (st.playerSockets.map Prod.fst).Nodup

/-- Join payload of a first concrete client ("p1"), position omitted. -/
def joinA : JoinData := ⟨"p1", "Harry", "Gryffindor", none⟩

/-- Join payload of a second concrete client ("p2"), position supplied. -/
def joinB : JoinData := ⟨"p2", "Draco", "Slytherin", some ⟨3, 4⟩⟩

/-- The session stored for `joinA` (position defaulted to the origin). -/
def sessionA : Session := ⟨"p1", "Harry", "Gryffindor", ⟨0, 0⟩, 100, 100⟩

/-- The session stored for `joinB`. -/
def sessionB : Session := ⟨"p2", "Draco", "Slytherin", ⟨3, 4⟩, 100, 100⟩

/-- State after client A joined on connection "sa". -/
def stateA : ServerState := stepState emptyState (Event.join "sa" joinA)

/-- State after client A joined on "sa" and client B joined on "sb". -/
def stateAB : ServerState := stepState stateA (Event.join "sb" joinB)

theorem mapGet_mapSet {α : Type} (m : List (String × α)) (k k' : String)
    (v : α) :
    mapGet (mapSet m k v) k' = if k = k' then some v else mapGet m k' := by
  induction m with
  | nil => simp [mapSet, mapGet]
  | cons e rest ih =>
      obtain ⟨ek, ev⟩ := e
      by_cases h1 : ek = k
      · subst h1
        by_cases h2 : ek = k' <;> simp [mapSet, mapGet, h2]
      · by_cases h2 : ek = k'
        · subst h2
          have : ¬ k = ek := fun h => h1 h.symm
          simp [mapSet, mapGet, h1, this]
        · simp [mapSet, mapGet, h1, h2, ih]

theorem mapDelete_cons {α : Type} (ek : String) (ev : α)
    (rest : List (String × α)) (k : String) :
    mapDelete ((ek, ev) :: rest) k =
      if ek = k then mapDelete rest k else (ek, ev) :: mapDelete rest k := by
  by_cases h : ek = k <;> simp [mapDelete, List.filter_cons, h]

theorem mapGet_mapDelete {α : Type} (m : List (String × α)) (k k' : String) :
    mapGet (mapDelete m k) k' = if k = k' then none else mapGet m k' := by
  induction m with
  | nil => simp [mapDelete, mapGet]
  | cons e rest ih =>
      obtain ⟨ek, ev⟩ := e
      rw [mapDelete_cons]
      by_cases h1 : ek = k
      · rw [if_pos h1, ih]
        subst h1
        by_cases h2 : ek = k'
        · subst h2; simp [mapGet]
        · simp [mapGet, h2]
      · rw [if_neg h1]
        by_cases h2 : ek = k'
        · subst h2
          have hk : ¬ ek = k := h1
          have hk' : ¬ k = ek := fun h => h1 h.symm
          simp [mapGet, hk']
        · simp [mapGet, h2, ih]

theorem mapGet_some_mem {α : Type} {m : List (String × α)} {k : String}
    {v : α} (h : mapGet m k = some v) : (k, v) ∈ m := by
  induction m with
  | nil => simp [mapGet] at h
  | cons e rest ih =>
      obtain ⟨ek, ev⟩ := e
      by_cases h1 : ek = k
      · subst h1
        simp [mapGet] at h
        subst h
        exact List.mem_cons_self _ _
      · simp [mapGet, h1] at h
        exact List.mem_cons_of_mem _ (ih h)

theorem mapSet_fresh {α : Type} {m : List (String × α)} {k : String}
    (v : α) (h : mapGet m k = none) : mapSet m k v = m ++ [(k, v)] := by
  induction m with
  | nil => simp [mapSet]
  | cons e rest ih =>
      obtain ⟨ek, ev⟩ := e
      by_cases h1 : ek = k
      · simp [mapGet, h1] at h
      · simp [mapGet, h1] at h
        simp [mapSet, h1, ih h]

theorem stepState_join (st : ServerState) (sock : String) (d : JoinData) :
    stepState st (Event.join sock d) =
      { st with
        activePlayers := mapSet st.activePlayers d.playerId sock
        playerSockets := mapSet st.playerSockets sock
          ⟨d.playerId, d.username, d.house, d.position.getD ⟨0, 0⟩, 100, 100⟩ } :=
  rfl

theorem stepState_move (st : ServerState) (sock : String) (d : MovePayload) :
    stepState st (Event.move sock d) =
      match mapGet st.playerSockets sock with
      | none => st
      | some pd =>
          { st with playerSockets :=
              mapSet st.playerSockets sock { pd with position := d.position } } := by
  cases h : mapGet st.playerSockets sock <;> simp [stepState, step, handleMove, h]

theorem stepState_disconnect (st : ServerState) (sock : String) :
    stepState st (Event.disconnect sock) =
      match mapGet st.playerSockets sock with
      | none => st
      | some pd =>
          { st with activePlayers := mapDelete st.activePlayers pd.playerId
                    playerSockets := mapDelete st.playerSockets sock } := by
  cases h : mapGet st.playerSockets sock <;>
    simp [stepState, step, handleDisconnect, h]

theorem stepState_spell_maps (st : ServerState) (sock : String)
    (d : SpellCastPayload) (now : Int) :
    (stepState st (Event.spellCast sock d now)).activePlayers = st.activePlayers ∧
    (stepState st (Event.spellCast sock d now)).playerSockets = st.playerSockets := by
  cases h : mapGet st.playerSockets sock <;>
    simp [stepState, step, handleSpellCast, h]

theorem stepState_damage_eq (st : ServerState) (sock : String)
    (d : DamagePayload) : stepState st (Event.damageDealt sock d) = st := by
  cases h : mapGet st.playerSockets sock with
  | none => simp [stepState, step, handleDamage, h]
  | some pd =>
      cases h2 : mapGet st.activePlayers d.targetId <;>
        simp [stepState, step, handleDamage, h, h2]

theorem stepState_death_eq (st : ServerState) (sock : String)
    (d : DeathPayload) : stepState st (Event.death sock d) = st := by
  cases h : mapGet st.playerSockets sock <;> simp [stepState, step, handleDeath, h]

theorem stepState_chat_eq (st : ServerState) (sock : String)
    (d : ChatPayload) (now : Int) : stepState st (Event.chat sock d now) = st := by
  cases h : mapGet st.playerSockets sock <;> simp [stepState, step, handleChat, h]

theorem runEvents_cons (st : ServerState) (e : Event) (es : List Event) :
    runEvents st (e :: es) = runEvents (stepState st e) es := rfl

/-- C2 (counterexample): in the state where A ("p1" on "sa") and B ("p2" on
"sb") have joined, A's damage-dealt event targeting "p2" is processed by a
joined sender against a registered target, yet the registry is left exactly
as it was — B's session keeps health 100 — so the health field of a session
held in the registry is NOT mutated by the damage event, contrary to the
claim. -/
theorem damage_leaves_health_unchanged_cex :
    mapGet stateAB.playerSockets "sa" = some sessionA ∧
    mapGet stateAB.playerSockets "sb" = some sessionB ∧
    (handleDamage stateAB "sa" ⟨"p2", 25, "spell"⟩).1 = stateAB ∧
    mapGet (handleDamage stateAB "sa" ⟨"p2", 25, "spell"⟩).1.playerSockets "sb"
      = some sessionB ∧
    sessionB.health = 100 := by decide

/-- C2 (amended): processing a damage-dealt event never mutates the registry
state at all — in particular no session's health field changes; the handler
only relays a damage-received message to the target's connection (true health
lives in the persisted record, updated via separate REST calls). -/
theorem damage_event_never_mutates_registry (st : ServerState) (sock : String)
    (d : DamagePayload) : (handleDamage st sock d).1 = st := by
  cases h : mapGet st.playerSockets sock with
  | none => simp [handleDamage, h]
  | some pd =>
      cases h2 : mapGet st.activePlayers d.targetId <;> simp [handleDamage, h, h2]

/-- C3: for a joined sender, a damage-dealt event with target `d.targetId`
produces exactly one damage-received message — unicast to the connection the
registry resolves the target to — when the target is registered, and no
message at all when it is not; in both cases the state is unchanged and no
error is surfaced.  A `Target.only t` message reaches no connection other
than `t`. -/
theorem damage_unicast_delivery (st : ServerState) (sock : String)
    (d : DamagePayload) (pd : Session)
    (hj : mapGet st.playerSockets sock = some pd) :
    ((handleDamage st sock d).2 =
      match mapGet st.activePlayers d.targetId with
      | some t => [(Target.only t, OutMsg.damageReceived pd.playerId d.damage d.source)]
      | none => []) ∧
    (handleDamage st sock d).1 = st ∧
    ∀ conns t c, c ∈ recipients conns (Target.only t) → c = t := by
  refine ⟨?_, ?_, ?_⟩
  · cases h2 : mapGet st.activePlayers d.targetId <;> simp [handleDamage, hj, h2]
  · cases h2 : mapGet st.activePlayers d.targetId <;> simp [handleDamage, hj, h2]
  · intro conns t c hc
    simp only [recipients, List.mem_filter, beq_iff_eq] at hc
    exact hc.2

/-- C3 (witness): with A and B joined, A's damage-dealt targeting "p2" is
delivered as exactly one damage-received message, only to B's connection
"sb"; targeting the unconnected "p9" delivers nothing. -/
theorem damage_unicast_delivery_witness :
    (handleDamage stateAB "sa" ⟨"p2", 25, "spell"⟩).2 =
      [(Target.only "sb", OutMsg.damageReceived "p1" 25 "spell")] ∧
    (handleDamage stateAB "sa" ⟨"p9", 25, "spell"⟩).2 = [] := by
  constructor
  · have h := damage_unicast_delivery stateAB "sa" ⟨"p2", 25, "spell"⟩ sessionA
      (by decide)
    rw [h.1]; decide
  · have h := damage_unicast_delivery stateAB "sa" ⟨"p9", 25, "spell"⟩ sessionA
      (by decide)
    rw [h.1]; decide

/-- C5: disconnecting a connection whose session is registered broadcasts a
player-left message carrying exactly the bare playerId to everyone except the
departed connection (which is never among the recipients of its own
`Target.allExcept`), and afterwards both the playerId lookup in
`activePlayers` and the connection lookup in `playerSockets` return absent. -/
theorem disconnect_departure_announcement (st : ServerState) (sock : String)
    (pd : Session) (h : mapGet st.playerSockets sock = some pd) :
    (handleDisconnect st sock).2 =
      [(Target.allExcept sock, OutMsg.playerLeft pd.playerId)] ∧
    mapGet (handleDisconnect st sock).1.activePlayers pd.playerId = none ∧
    mapGet (handleDisconnect st sock).1.playerSockets sock = none ∧
    ∀ conns, sock ∉ recipients conns (Target.allExcept sock) := by
  refine ⟨?_, ?_, ?_, ?_⟩
  · simp [handleDisconnect, h]
  · simp [handleDisconnect, h, mapGet_mapDelete]
  · simp [handleDisconnect, h, mapGet_mapDelete]
  · intro conns hc
    have h2 := (List.mem_filter.mp hc).2
    simp at h2

/-- C5 (witness): A disconnecting from "sa" in the two-player state
broadcasts exactly the bare "p1" to everyone but "sa", after which "p1" no
longer resolves and "sa" has no session. -/
theorem disconnect_departure_announcement_witness :
    (handleDisconnect stateAB "sa").2 =
      [(Target.allExcept "sa", OutMsg.playerLeft "p1")] ∧
    mapGet (handleDisconnect stateAB "sa").1.activePlayers "p1" = none ∧
    mapGet (handleDisconnect stateAB "sa").1.playerSockets "sa" = none := by
  have h := disconnect_departure_announcement stateAB "sa" sessionA (by decide)
  exact ⟨h.1, h.2.1, h.2.2.1⟩

/-- C7: an inbound non-join event whose sender connection has no session
(unjoined state) is silently ignored: the state is returned unchanged and no
outbound message of any kind is produced. -/
theorem unjoined_events_silently_ignored (st : ServerState) (e : Event)
    (hunj : mapGet st.playerSockets (eventSock e) = none)
    (hnj : nonJoinEvent e = true) :
    step st e = (st, []) := by
  cases e with
  | join sock d => simp [nonJoinEvent] at hnj
  | move sock d =>
      simp only [eventSock] at hunj; simp [step, handleMove, hunj]
  | spellCast sock d now =>
      simp only [eventSock] at hunj; simp [step, handleSpellCast, hunj]
  | damageDealt sock d =>
      simp only [eventSock] at hunj; simp [step, handleDamage, hunj]
  | death sock d =>
      simp only [eventSock] at hunj; simp [step, handleDeath, hunj]
  | chat sock d now =>
      simp only [eventSock] at hunj; simp [step, handleChat, hunj]
  | disconnect sock =>
      simp only [eventSock] at hunj; simp [step, handleDisconnect, hunj]

/-- C7 (witness): a move to (5,5) on a connection that never joined produces
no state change and no broadcast. -/
theorem unjoined_events_silently_ignored_witness :
    step emptyState (Event.move "sa" ⟨⟨5, 5⟩⟩) = (emptyState, []) :=
  unjoined_events_silently_ignored emptyState (Event.move "sa" ⟨⟨5, 5⟩⟩)
    (by decide) (by decide)

/-- C9: one pass of the periodic cleanup sweep leaves exactly the entries
whose age `now - timestamp` does not exceed SPELL_TIMEOUT, in their original
order — every strictly older entry is absent, every other entry is retained —
for a buffer of any size. -/
theorem spell_sweep_filters_old (now : Int) (buf : List SpellData) :
    sweepSpells now buf =
      buf.filter fun s => !decide (SPELL_TIMEOUT < now - s.timestamp) := by
  induction buf with
  | nil => rfl
  | cons s rest ih =>
      by_cases h : SPELL_TIMEOUT < now - s.timestamp <;>
        simp [sweepSpells, List.filter_cons, h, ih]

theorem pushSpell_eq_drop (l : List SpellData) (s : SpellData) :
    pushSpell (l.drop (l.length - MAX_SPELL_HISTORY)) s =
      (l ++ [s]).drop ((l ++ [s]).length - MAX_SPELL_HISTORY) := by
  unfold pushSpell
  simp only [List.length_append, List.length_singleton]
  by_cases h : l.length < MAX_SPELL_HISTORY
  · have h0 : l.length - MAX_SPELL_HISTORY = 0 := by omega
    have h1 : l.length + 1 - MAX_SPELL_HISTORY = 0 := by omega
    have h2 : ¬ MAX_SPELL_HISTORY < (l ++ [s]).length := by
      simp only [List.length_append, List.length_singleton]; omega
    simp only [h0, h1, List.drop_zero]
    rw [if_neg (by simpa using h2)]
  · have hle : MAX_SPELL_HISTORY ≤ l.length := by omega
    have hlendrop : (l.drop (l.length - MAX_SPELL_HISTORY)).length
        = MAX_SPELL_HISTORY := by
      simp only [List.length_drop]; omega
    have hpos : 0 < MAX_SPELL_HISTORY := by norm_num [MAX_SPELL_HISTORY]
    have hgt : MAX_SPELL_HISTORY <
        (l.drop (l.length - MAX_SPELL_HISTORY)).length + 1 := by
      rw [hlendrop]; omega
    rw [if_pos hgt]
    have hone : (1 : Nat) ≤ (l.drop (l.length - MAX_SPELL_HISTORY)).length := by
      omega
    rw [List.drop_append_of_le_length hone, List.drop_drop]
    have hk : l.length - MAX_SPELL_HISTORY + 1
        = l.length + 1 - MAX_SPELL_HISTORY := by omega
    rw [hk]
    have hk2 : l.length + 1 - MAX_SPELL_HISTORY ≤ l.length := by
      have : 0 < MAX_SPELL_HISTORY := by norm_num [MAX_SPELL_HISTORY]
      omega
    rw [List.drop_append_of_le_length hk2]

/-- C8: appending any sequence of spell records to an initially empty
recent-spell buffer through the handler's bounded append leaves exactly the
`min (length) MAX_SPELL_HISTORY` most recently appended entries, in arrival
order (the buffer is the suffix of the appended sequence past its first
`length - 50` elements), so the buffer's length never exceeds
MAX_SPELL_HISTORY = 50 after any append. -/
theorem spell_buffer_capacity (ss : List SpellData) :
    ss.foldl pushSpell [] = ss.drop (ss.length - MAX_SPELL_HISTORY) ∧
    (ss.foldl pushSpell []).length = min ss.length MAX_SPELL_HISTORY := by
  have hmain : ∀ t : List SpellData,
      t.foldl pushSpell [] = t.drop (t.length - MAX_SPELL_HISTORY) := by
    intro t
    induction t using List.reverseRecOn with
    | nil => rfl
    | append_singleton xs x ih =>
        rw [List.foldl_append, List.foldl_cons, List.foldl_nil, ih,
          pushSpell_eq_drop]
  refine ⟨hmain ss, ?_⟩
  rw [hmain ss]
  simp only [List.length_drop]
  omega

theorem runJoins_activePlayers (js : List (String × JoinData))
    (st : ServerState) (p : String) :
    mapGet (runEvents st (js.map fun j => Event.join j.1 j.2)).activePlayers p =
      match mostRecentConn js p with
      | some c => some c
      | none => mapGet st.activePlayers p := by
  induction js generalizing st with
  | nil => rfl
  | cons j rest ih =>
      obtain ⟨sock, d⟩ := j
      rw [List.map_cons, runEvents_cons, ih]
      cases hmr : mostRecentConn rest p with
      | some c => simp [mostRecentConn, hmr]
      | none =>
          simp only [mostRecentConn, hmr, stepState_join, mapGet_mapSet]
          by_cases hp : d.playerId = p <;> simp [hp]

/-- C6: starting from the empty registry, after any sequence of register
(join) operations, `activePlayers` resolves a playerId to the connection id
of the most recent join carrying that playerId (or to absent if none);
moreover a join unconditionally succeeds — it always leaves
`activePlayers` pointing the joined playerId at the joining connection,
overwriting any previous pointer. -/
theorem resolve_most_recent_register :
    (∀ (js : List (String × JoinData)) (p : String),
       mapGet (runEvents emptyState
           (js.map fun j => Event.join j.1 j.2)).activePlayers p
         = mostRecentConn js p) ∧
    (∀ (st : ServerState) (sock : String) (d : JoinData),
       mapGet (stepState st (Event.join sock d)).activePlayers d.playerId
         = some sock) := by
  constructor
  · intro js p
    rw [runJoins_activePlayers]
    cases hmr : mostRecentConn js p <;> simp [emptyState, mapGet]
  · intro st sock d
    rw [stepState_join]
    simp [mapGet_mapSet]

theorem join_activePlayers (st : ServerState) (sock : String) (d : JoinData) :
    (stepState st (Event.join sock d)).activePlayers =
      mapSet st.activePlayers d.playerId sock := rfl

theorem join_playerSockets (st : ServerState) (sock : String) (d : JoinData) :
    (stepState st (Event.join sock d)).playerSockets =
      mapSet st.playerSockets sock
        ⟨d.playerId, d.username, d.house, d.position.getD ⟨0, 0⟩, 100, 100⟩ :=
  rfl

theorem move_fields (st : ServerState) (sock : String) (d : MovePayload)
    (pd : Session) (h : mapGet st.playerSockets sock = some pd) :
    (stepState st (Event.move sock d)).activePlayers = st.activePlayers ∧
    (stepState st (Event.move sock d)).playerSockets =
      mapSet st.playerSockets sock { pd with position := d.position } := by
  simp [stepState, step, handleMove, h]

theorem disconnect_fields (st : ServerState) (sock : String) (pd : Session)
    (h : mapGet st.playerSockets sock = some pd) :
    (stepState st (Event.disconnect sock)).activePlayers =
      mapDelete st.activePlayers pd.playerId ∧
    (stepState st (Event.disconnect sock)).playerSockets =
      mapDelete st.playerSockets sock := by
  simp [stepState, step, handleDisconnect, h]

theorem mem_mapSet {α : Type} {x : String × α} {m : List (String × α)}
    {k : String} {v : α} (h : x ∈ mapSet m k v) : x ∈ m ∨ x = (k, v) := by
  induction m with
  | nil =>
      simp only [mapSet, List.mem_singleton] at h
      exact Or.inr h
  | cons e rest ih =>
      obtain ⟨ek, ev⟩ := e
      by_cases hk : ek = k
      · rw [mapSet, if_pos hk] at h
        rcases List.mem_cons.mp h with h2 | h2
        · exact Or.inr h2
        · exact Or.inl (List.mem_cons_of_mem _ h2)
      · rw [mapSet, if_neg hk] at h
        rcases List.mem_cons.mp h with h2 | h2
        · exact Or.inl (by rw [h2]; exact List.mem_cons_self _ _)
        · rcases ih h2 with h3 | h3
          · exact Or.inl (List.mem_cons_of_mem _ h3)
          · exact Or.inr h3

theorem consistent_stepState (st : ServerState) (e : Event)
    (hc : Consistent st) (ha : admissibleEvent st e = true) :
    Consistent (stepState st e) := by
  obtain ⟨hfwd, hbwd⟩ := hc
  cases e with
  | join sock d =>
      simp only [admissibleEvent, List.all_eq_true] at ha
      constructor
      · intro c s hget
        rw [join_playerSockets, mapGet_mapSet] at hget
        rw [join_activePlayers, mapGet_mapSet]
        by_cases hcs : sock = c
        · rw [if_pos hcs] at hget
          have hs := Option.some.inj hget
          rw [← hs, if_pos rfl]
          exact congrArg some hcs
        · rw [if_neg hcs] at hget
          have hane := ha (c, s) (mapGet_some_mem hget)
          rw [if_neg (fun h : c = sock => hcs h.symm)] at hane
          have hne : s.playerId ≠ d.playerId := by simpa using hane
          rw [if_neg (fun h : d.playerId = s.playerId => hne h.symm)]
          exact hfwd c s hget
      · intro p c hget
        rw [join_activePlayers, mapGet_mapSet] at hget
        by_cases hp : d.playerId = p
        · rw [if_pos hp] at hget
          have hcs := Option.some.inj hget
          refine ⟨⟨d.playerId, d.username, d.house,
            d.position.getD ⟨0, 0⟩, 100, 100⟩, ?_, hp⟩
          rw [join_playerSockets, mapGet_mapSet, if_pos hcs]
        · rw [if_neg hp] at hget
          obtain ⟨s, hs, hsp⟩ := hbwd p c hget
          by_cases hcs : sock = c
          · exfalso
            subst hcs
            have h2 := ha (sock, s) (mapGet_some_mem hs)
            rw [if_pos rfl] at h2
            have h3 : s.playerId = d.playerId := by simpa using h2
            exact hp (h3 ▸ hsp)
          · refine ⟨s, ?_, hsp⟩
            rw [join_playerSockets, mapGet_mapSet, if_neg hcs]
            exact hs
  | move sock d =>
      cases hm : mapGet st.playerSockets sock with
      | none =>
          have heq : stepState st (Event.move sock d) = st := by
            rw [stepState_move, hm]
          rw [heq]; exact ⟨hfwd, hbwd⟩
      | some pd =>
          obtain ⟨hap, hps⟩ := move_fields st sock d pd hm
          constructor
          · intro c s hget
            rw [hps, mapGet_mapSet] at hget
            rw [hap]
            by_cases hcs : sock = c
            · rw [if_pos hcs] at hget
              have hs := Option.some.inj hget
              rw [← hs]
              have h2 := hfwd sock pd hm
              rw [hcs] at h2
              exact h2
            · rw [if_neg hcs] at hget
              exact hfwd c s hget
          · intro p c hget
            rw [hap] at hget
            obtain ⟨s, hs, hsp⟩ := hbwd p c hget
            by_cases hcs : sock = c
            · subst hcs
              rw [hm] at hs
              have hspd : s = pd := Option.some.inj hs.symm
              subst hspd
              refine ⟨{ s with position := d.position }, ?_, hsp⟩
              rw [hps, mapGet_mapSet, if_pos rfl]
            · refine ⟨s, ?_, hsp⟩
              rw [hps, mapGet_mapSet, if_neg hcs]
              exact hs
  | spellCast sock d now =>
      obtain ⟨hap, hps⟩ := stepState_spell_maps st sock d now
      constructor
      · intro c s hget
        rw [hps] at hget
        rw [hap]
        exact hfwd c s hget
      · intro p c hget
        rw [hap] at hget
        obtain ⟨s, hs, hsp⟩ := hbwd p c hget
        exact ⟨s, by rw [hps]; exact hs, hsp⟩
  | damageDealt sock d =>
      rw [stepState_damage_eq]; exact ⟨hfwd, hbwd⟩
  | death sock d =>
      rw [stepState_death_eq]; exact ⟨hfwd, hbwd⟩
  | chat sock d now =>
      rw [stepState_chat_eq]; exact ⟨hfwd, hbwd⟩
  | disconnect sock =>
      cases hm : mapGet st.playerSockets sock with
      | none =>
          have heq : stepState st (Event.disconnect sock) = st := by
            rw [stepState_disconnect, hm]
          rw [heq]; exact ⟨hfwd, hbwd⟩
      | some pd =>
          obtain ⟨hap, hps⟩ := disconnect_fields st sock pd hm
          constructor
          · intro c s hget
            rw [hps, mapGet_mapDelete] at hget
            by_cases hcs : sock = c
            · rw [if_pos hcs] at hget
              exact absurd hget (by simp)
            · rw [if_neg hcs] at hget
              rw [hap, mapGet_mapDelete]
              have hnp : pd.playerId ≠ s.playerId := by
                intro hpp
                have h1 := hfwd c s hget
                have h2 := hfwd sock pd hm
                rw [hpp, h1] at h2
                exact hcs (Option.some.inj h2).symm
              rw [if_neg hnp]
              exact hfwd c s hget
          · intro p c hget
            rw [hap, mapGet_mapDelete] at hget
            by_cases hpp : pd.playerId = p
            · rw [if_pos hpp] at hget
              exact absurd hget (by simp)
            · rw [if_neg hpp] at hget
              obtain ⟨s, hs, hsp⟩ := hbwd p c hget
              by_cases hcs : sock = c
              · exfalso
                subst hcs
                rw [hm] at hs
                have h3 : pd = s := Option.some.inj hs
                exact hpp (by rw [h3]; exact hsp)
              · refine ⟨s, ?_, hsp⟩
                rw [hps, mapGet_mapDelete, if_neg hcs]
                exact hs

theorem consistent_empty : Consistent emptyState := by
  constructor
  · intro c s h
    simp [emptyState, mapGet] at h
  · intro p c h
    simp [emptyState, mapGet] at h

theorem consistent_run (st : ServerState) (es : List Event)
    (hc : Consistent st) (ha : admissibleRun st es = true) :
    Consistent (runEvents st es) := by
  induction es generalizing st with
  | nil => exact hc
  | cons e rest ih =>
      simp only [admissibleRun, Bool.and_eq_true] at ha
      rw [runEvents_cons]
      exact ih (stepState st e) (consistent_stepState st e hc ha.1) ha.2

/-- C1 (counterexample): a second join for the playerId "p1" from connection
"sb" while "sa" still holds a session for "p1" leaves the two views
inconsistent — the stale session stored under "sa" carries "p1", but
`activePlayers` resolves "p1" to "sb" — so the claimed invariant fails after
this sequence of join events. -/
theorem duplicate_join_breaks_consistency :
    ¬ Consistent (runEvents emptyState
        [Event.join "sa" joinA, Event.join "sb" joinA]) := by
  intro hc
  have h := hc.1 "sa" sessionA (by decide)
  have h2 : mapGet (runEvents emptyState
      [Event.join "sa" joinA, Event.join "sb" joinA]).activePlayers
        sessionA.playerId = some "sb" := by decide
  rw [h] at h2
  exact absurd h2 (by decide)

/-- C1 (amended): after any sequence of join and disconnect events in which
every join either re-registers its own connection under that connection's
existing playerId or uses a playerId not currently carried by another
connection's session, the two registry views agree: every connection-keyed
session resolves through the player-keyed map back to exactly its connection,
and every player-keyed pointer points at a stored session carrying that
playerId; no event leaves one map mutated and the other not.  (Without the
proviso, a second join for the same playerId from a different connection
leaves a stale connection-keyed session whose playerId resolves to the newer
connection.) -/
theorem registry_two_view_consistency (es : List Event)
    (_hjd : ∀ e ∈ es, isJoinOrDisconnect e = true)
    (ha : admissibleRun emptyState es = true) :
    Consistent (runEvents emptyState es) :=
  consistent_run emptyState es consistent_empty ha

/-- C1 (witness): the invariant holds after A joining on "sa", B joining on
"sb" with a distinct playerId, and A disconnecting. -/
theorem registry_two_view_consistency_witness :
    Consistent (runEvents emptyState
      [Event.join "sa" joinA, Event.join "sb" joinB, Event.disconnect "sa"]) :=
  registry_two_view_consistency
    [Event.join "sa" joinA, Event.join "sb" joinB, Event.disconnect "sa"]
    (by decide) (by decide)

theorem allHealth100_stepState (st : ServerState) (e : Event)
    (h : allHealth100 st) : allHealth100 (stepState st e) := by
  cases e with
  | join sock d =>
      intro x hx
      rw [join_playerSockets] at hx
      rcases mem_mapSet hx with h2 | h2
      · exact h x h2
      · rw [h2]
        exact ⟨rfl, rfl⟩
  | move sock d =>
      cases hm : mapGet st.playerSockets sock with
      | none =>
          have heq : stepState st (Event.move sock d) = st := by
            rw [stepState_move, hm]
          rw [heq]; exact h
      | some pd =>
          intro x hx
          rw [(move_fields st sock d pd hm).2] at hx
          rcases mem_mapSet hx with h2 | h2
          · exact h x h2
          · rw [h2]
            exact h (sock, pd) (mapGet_some_mem hm)
  | spellCast sock d now =>
      intro x hx
      rw [(stepState_spell_maps st sock d now).2] at hx
      exact h x hx
  | damageDealt sock d => rw [stepState_damage_eq]; exact h
  | death sock d => rw [stepState_death_eq]; exact h
  | chat sock d now => rw [stepState_chat_eq]; exact h
  | disconnect sock =>
      cases hm : mapGet st.playerSockets sock with
      | none =>
          have heq : stepState st (Event.disconnect sock) = st := by
            rw [stepState_disconnect, hm]
          rw [heq]; exact h
      | some pd =>
          intro x hx
          rw [(disconnect_fields st sock pd hm).2] at hx
          exact h x (List.mem_of_mem_filter hx)

theorem allHealth100_run (st : ServerState) (es : List Event)
    (h : allHealth100 st) : allHealth100 (runEvents st es) := by
  induction es generalizing st with
  | nil => exact h
  | cons e rest ih =>
      rw [runEvents_cons]
      exact ih _ (allHealth100_stepState st e h)

/-- C10: in any reachable state, a join stores a session whose health and
maxHealth are 100 regardless of the payload (which carries no health at all)
and whose position defaults to the origin when the payload omits it; and a
move event from any joined connection broadcasts a player-moved message
reporting health 100 and maxHealth 100, since no event of the relay layer
ever writes any other health value. -/
theorem join_health_defaults_and_move_snapshot (es : List Event)
    (sock sock2 : String) (d : JoinData) (mv : MovePayload) (pd : Session)
    (hd : d.position = none)
    (hpd : mapGet (runEvents emptyState es).playerSockets sock2 = some pd) :
    mapGet (stepState (runEvents emptyState es)
        (Event.join sock d)).playerSockets sock =
      some ⟨d.playerId, d.username, d.house, ⟨0, 0⟩, 100, 100⟩ ∧
    (step (runEvents emptyState es) (Event.move sock2 mv)).2 =
      [(Target.allExcept sock2,
        OutMsg.playerMoved
          ⟨pd.playerId, pd.username, pd.house, mv.position, 100, 100⟩)] := by
  constructor
  · rw [join_playerSockets, mapGet_mapSet, if_pos rfl, hd]
    rfl
  · have hh := allHealth100_run emptyState es
      (by intro x hx; simp [emptyState] at hx) (sock2, pd)
      (mapGet_some_mem hpd)
    have heq : (step (runEvents emptyState es) (Event.move sock2 mv)).2 =
        [(Target.allExcept sock2,
          OutMsg.playerMoved ⟨pd.playerId, pd.username, pd.house, mv.position,
            pd.health, pd.maxHealth⟩)] := by
      simp [step, handleMove, hpd]
    rw [heq, hh.1, hh.2]

/-- C10 (witness): joining with a payload omitting position stores the
session at the origin with health 100/100, and A's subsequent move to (7,8)
broadcasts health 100 and maxHealth 100. -/
theorem join_health_defaults_and_move_snapshot_witness :
    mapGet (stepState (runEvents emptyState [Event.join "sa" joinA])
        (Event.join "sb" joinA)).playerSockets "sb" =
      some ⟨"p1", "Harry", "Gryffindor", ⟨0, 0⟩, 100, 100⟩ ∧
    (step (runEvents emptyState [Event.join "sa" joinA])
        (Event.move "sa" ⟨⟨7, 8⟩⟩)).2 =
      [(Target.allExcept "sa",
        OutMsg.playerMoved ⟨"p1", "Harry", "Gryffindor", ⟨7, 8⟩, 100, 100⟩)] :=
  join_health_defaults_and_move_snapshot [Event.join "sa" joinA] "sb" "sa"
    joinA ⟨⟨7, 8⟩⟩ sessionA (by decide) (by decide)

theorem keys_mapSet_subset {α : Type} {a k : String} {v : α}
    {m : List (String × α)} (h : a ∈ (mapSet m k v).map Prod.fst) :
    a ∈ m.map Prod.fst ∨ a = k := by
  obtain ⟨x, hx, rfl⟩ := List.mem_map.mp h
  rcases mem_mapSet hx with h2 | h2
  · exact Or.inl (List.mem_map_of_mem Prod.fst h2)
  · rw [h2]
    exact Or.inr rfl

theorem mapSet_keys_nodup {α : Type} {m : List (String × α)} (k : String)
    (v : α) (h : (m.map Prod.fst).Nodup) :
    ((mapSet m k v).map Prod.fst).Nodup := by
  induction m with
  | nil => simp [mapSet]
  | cons e rest ih =>
      obtain ⟨ek, ev⟩ := e
      simp only [List.map_cons, List.nodup_cons] at h
      obtain ⟨hnotin, hrest⟩ := h
      by_cases hk : ek = k
      · subst hk
        rw [mapSet, if_pos rfl]
        simp only [List.map_cons, List.nodup_cons]
        exact ⟨hnotin, hrest⟩
      · rw [mapSet, if_neg hk]
        simp only [List.map_cons, List.nodup_cons]
        refine ⟨?_, ih hrest⟩
        intro hmem
        rcases keys_mapSet_subset hmem with h2 | h2
        · exact hnotin h2
        · exact hk h2

theorem mapDelete_keys_nodup {α : Type} {m : List (String × α)} (k : String)
    (h : (m.map Prod.fst).Nodup) : ((mapDelete m k).map Prod.fst).Nodup :=
  List.Nodup.sublist (List.Sublist.map Prod.fst (List.filter_sublist m)) h

theorem uniqueConnections_stepState (st : ServerState) (e : Event)
    (h : uniqueConnections st) : uniqueConnections (stepState st e) := by
  cases e with
  | join sock d =>
      show ((stepState st (Event.join sock d)).playerSockets.map Prod.fst).Nodup
      rw [join_playerSockets]
      exact mapSet_keys_nodup sock _ h
  | move sock d =>
      cases hm : mapGet st.playerSockets sock with
      | none =>
          have heq : stepState st (Event.move sock d) = st := by
            rw [stepState_move, hm]
          rw [heq]; exact h
      | some pd =>
          show ((stepState st (Event.move sock d)).playerSockets.map
            Prod.fst).Nodup
          rw [(move_fields st sock d pd hm).2]
          exact mapSet_keys_nodup sock _ h
  | spellCast sock d now =>
      show ((stepState st (Event.spellCast sock d now)).playerSockets.map
        Prod.fst).Nodup
      rw [(stepState_spell_maps st sock d now).2]
      exact h
  | damageDealt sock d => rw [stepState_damage_eq]; exact h
  | death sock d => rw [stepState_death_eq]; exact h
  | chat sock d now => rw [stepState_chat_eq]; exact h
  | disconnect sock =>
      cases hm : mapGet st.playerSockets sock with
      | none =>
          have heq : stepState st (Event.disconnect sock) = st := by
            rw [stepState_disconnect, hm]
          rw [heq]; exact h
      | some pd =>
          show ((stepState st (Event.disconnect sock)).playerSockets.map
            Prod.fst).Nodup
          rw [(disconnect_fields st sock pd hm).2]
          exact mapDelete_keys_nodup sock h

theorem uniqueConnections_run (st : ServerState) (es : List Event)
    (h : uniqueConnections st) : uniqueConnections (runEvents st es) := by
  induction es generalizing st with
  | nil => exact h
  | cons e rest ih =>
      rw [runEvents_cons]
      exact ih _ (uniqueConnections_stepState st e h)

theorem roster_filter_eq (m : List (String × Session)) (sock : String)
    (S : Session) (pid : String) (hS : S.playerId = pid)
    (huniq : (m.map Prod.fst).Nodup)
    (hpid : ∀ e ∈ m, e.1 ≠ sock → e.2.playerId ≠ pid) :
    ((mapSet m sock S).map Prod.snd).filter (fun p => p.playerId != pid)
      = (mapDelete m sock).map Prod.snd := by
  induction m with
  | nil => simp [mapSet, mapDelete, List.filter_cons, hS]
  | cons e rest ih =>
      obtain ⟨k, v⟩ := e
      simp only [List.map_cons, List.nodup_cons] at huniq
      obtain ⟨hknotin, hrest⟩ := huniq
      by_cases hk : k = sock
      · subst hk
        rw [mapSet, if_pos rfl, mapDelete_cons, if_pos rfl]
        simp only [List.map_cons, List.filter_cons, hS, bne_self_eq_false,
          Bool.false_eq_true, if_false]
        have hdel : mapDelete rest k = rest := by
          apply List.filter_eq_self.mpr
          intro a ha
          have hne : a.1 ≠ k := fun hh =>
            hknotin (hh ▸ List.mem_map_of_mem Prod.fst ha)
          simpa using hne
        rw [hdel]
        apply List.filter_eq_self.mpr
        intro a ha
        obtain ⟨e2, he2, rfl⟩ := List.mem_map.mp ha
        have hne : e2.1 ≠ k := fun hh =>
          hknotin (hh ▸ List.mem_map_of_mem Prod.fst he2)
        have hp := hpid e2 (List.mem_cons_of_mem _ he2) hne
        simpa using hp
      · rw [mapSet, if_neg hk, mapDelete_cons, if_neg hk]
        simp only [List.map_cons, List.filter_cons]
        have hv : v.playerId ≠ pid := hpid (k, v) (List.mem_cons_self _ _) hk
        have hvb : (v.playerId != pid) = true := by simpa using hv
        rw [hvb]
        simp only [if_true]
        rw [ih hrest fun e2 he2 h2 => hpid e2 (List.mem_cons_of_mem _ he2) h2]

/-- C4 (counterexample): with A's session for "p1" stored under connection
"sa", a join on the different connection "sb" carrying the same playerId
"p1" replies with an EMPTY roster — the playerId-based filter drops the
still-registered other-connection session — so the roster does not contain
the public fields of every other currently-registered session, contrary to
the claim. -/
theorem duplicate_playerid_join_empties_roster :
    mapGet stateA.playerSockets "sa" = some sessionA ∧
    (handleJoin stateA "sb" joinA).2 =
      [(Target.only "sb", OutMsg.playersList []),
       (Target.allExcept "sb",
        OutMsg.playerJoined ⟨"p1", "Harry", "Gryffindor", ⟨0, 0⟩⟩)] := by
  decide

/-- C4 (amended): for every join event, in any reachable state, provided no
other connection's stored session carries the joiner's playerId (re-joins of
the same connection allowed): the joiner — and only the joiner — receives a
roster of exactly the public fields (playerId, username, house, position) of
the sessions stored for the other connections, in stored order, never
including the joiner's own session; everyone except the joiner receives the
player-joined broadcast of the joiner's public fields, and the joiner is
never among that broadcast's recipients.  (Without the proviso, the
playerId-based roster filter omits a still-registered other-connection
session carrying the joiner's playerId.) -/
theorem join_roster_and_broadcast (es : List Event) (sock : String)
    (d : JoinData)
    (hpid : ∀ e ∈ (runEvents emptyState es).playerSockets,
       e.1 ≠ sock → e.2.playerId ≠ d.playerId) :
    (handleJoin (runEvents emptyState es) sock d).2 =
      [(Target.only sock,
        OutMsg.playersList
          (((mapDelete (runEvents emptyState es).playerSockets sock).map
            Prod.snd).map publicOf)),
       (Target.allExcept sock,
        OutMsg.playerJoined
          ⟨d.playerId, d.username, d.house, d.position.getD ⟨0, 0⟩⟩)] ∧
    (∀ conns, sock ∉ recipients conns (Target.allExcept sock)) ∧
    (∀ conns c, c ∈ conns → c ≠ sock →
       c ∈ recipients conns (Target.allExcept sock)) := by
  refine ⟨?_, ?_, ?_⟩
  · have huniq := uniqueConnections_run emptyState es
      (by simp [uniqueConnections, emptyState])
    have hfil := roster_filter_eq (runEvents emptyState es).playerSockets sock
      ⟨d.playerId, d.username, d.house, d.position.getD ⟨0, 0⟩, 100, 100⟩
      d.playerId rfl huniq hpid
    have h0 : (handleJoin (runEvents emptyState es) sock d).2 =
        [(Target.only sock,
          OutMsg.playersList
            ((((mapSet (runEvents emptyState es).playerSockets sock
              ⟨d.playerId, d.username, d.house, d.position.getD ⟨0, 0⟩,
                100, 100⟩).map Prod.snd).filter
              fun p => p.playerId != d.playerId).map publicOf)),
         (Target.allExcept sock,
          OutMsg.playerJoined
            ⟨d.playerId, d.username, d.house, d.position.getD ⟨0, 0⟩⟩)] := rfl
    rw [h0, hfil]
  · intro conns hc
    have h2 := (List.mem_filter.mp hc).2
    simp at h2
  · intro conns c hc hne
    exact List.mem_filter.mpr ⟨hc, by simpa using hne⟩

/-- C4 (witness): with A already joined on "sa" (a reachable state), B's
join on "sb" with the distinct playerId "p2" receives a roster of exactly
A's public fields, everyone but "sb" gets the player-joined broadcast of B's
public fields, and "sb" is excluded from that broadcast's recipients. -/
theorem join_roster_and_broadcast_witness :
    (handleJoin (runEvents emptyState [Event.join "sa" joinA]) "sb" joinB).2 =
      [(Target.only "sb",
        OutMsg.playersList [⟨"p1", "Harry", "Gryffindor", ⟨0, 0⟩⟩]),
       (Target.allExcept "sb",
        OutMsg.playerJoined ⟨"p2", "Draco", "Slytherin", ⟨3, 4⟩⟩)] ∧
    (∀ conns, "sb" ∉ recipients conns (Target.allExcept "sb")) := by
  have h := join_roster_and_broadcast [Event.join "sa" joinA] "sb" joinB
    (by decide)
  refine ⟨?_, h.2.1⟩
  rw [h.1]
  decide

end WizardServer
